import Mathlib

/-!
# Verification of the attendance / salary engine of `nownn.py`

Shallow embedding of the core logic of the employee-management program:
the record store (`load_employees`, `load_attendance`, `save_attendance`),
the calendar helpers (`month_days_iter`, `business_days_in_month`), the
month aggregator (`SalaryTab._gather_month_attendance`), the salary
computation (`SalaryTab.on_calculate`), the duplicate-id guard of
`EmployeesTab.on_save_new`, and the merge-on-load of
`AttendanceTab.on_load`.

Python float arithmetic is embedded as exact rational arithmetic (`ℚ`);
Python dicts keyed by employee id are embedded as total functions
`String → Stats` whose default value mirrors the dict's explicit
zero-initialisation; file contents are embedded as a `StoredContent`
value distinguishing a missing resource, an unparsable resource and a
parsed value, and code whose exceptions escape returns `Except`.
-/

namespace Nownn

/-! ## Data model -/

/-- An employee record as stored in `employees.json`; only the fields the
salary engine reads (`emp_id`, `name`, `base_salary`). `base_salary` is
stored as a float after form validation (`rec["base_salary"] = float(...)`). -/
structure Employee where
  emp_id : String
  name : String
  base_salary : ℚ
  deriving DecidableEq

/-- One attendance row of a day snapshot (`{emp_id, name, status, ip, overtime}`).
`overtime` is `none` when the stored value does not parse as a number
(the `float(...)` coercion in the aggregator raises on it). -/
structure AttRecord where
  emp_id : String
  name : String
  status : String
  ip : String
  overtime : Option ℚ
  deriving DecidableEq

/-- Per-employee monthly totals, the value type of the aggregation dict
`d[emp] = {"present": 0, "absent": 0, "ot": 0.0}`. -/
structure Stats where
  present : Nat
  absent : Nat
  ot : ℚ
  deriving DecidableEq

def Stats.zero : Stats := ⟨0, 0, 0⟩

/-! ## Record store (`load_employees`, `load_attendance`, `save_attendance`)

The backing file of a storage resource is either absent, present but not
valid JSON, or present with a parsed value. -/

inductive StoredContent (α : Type) where
  | missing : StoredContent α
  | malformed : StoredContent α
  | parsed : α → StoredContent α
  deriving DecidableEq

/-- `load_employees`: the whole body is wrapped in `try/except Exception`,
so both a missing file (after `ensure_dirs` initialises it to `[]`) and a
file whose JSON fails to parse yield the empty roster. -/
def load_employees : StoredContent (List Employee) → List Employee
  | .missing => []
  | .malformed => []
  | .parsed v => v

/-- `load_attendance(day_str)`: returns `[]` when `os.path.exists` is
false, otherwise calls `json.load` with no exception handler, so an
existing but unparsable file raises (modelled as `Except.error`). -/
def load_attendance : StoredContent (List AttRecord) → Except String (List AttRecord)
  | .missing => .ok []
  | .malformed => .error "JSONDecodeError"
  | .parsed v => .ok v

/-- Attendance storage: one resource per `YYYY-MM-DD` day key. -/
def AttStore : Type := String → StoredContent (List AttRecord)

/-- `save_attendance(day_str, rows)`: replaces the day's file wholesale
with the JSON dump of `rows`; other days are untouched. -/
def save_attendance (store : AttStore) (day : String) (rows : List AttRecord) : AttStore :=
  fun k => if k = day then .parsed rows else store k

/-- Loading one day through the store. -/
def loadDayAttendance (store : AttStore) (day : String) : Except String (List AttRecord) :=
  load_attendance (store day)

/-! ## Calendar helpers (`month_days_iter`, `business_days_in_month`)

The source delegates to `calendar.monthrange` and `datetime.date`
arithmetic; these embed the proleptic Gregorian rules those library calls
implement. -/

def isLeapYear (y : Nat) : Bool :=
  (y % 4 == 0 && y % 100 != 0) || (y % 400 == 0)

/-- Length of month `m` of year `y` (`calendar.monthrange(year, month)[1]`). -/
def daysInMonth (y m : Nat) : Nat :=
  if m = 2 then (if isLeapYear y then 29 else 28)
  else if m = 4 ∨ m = 6 ∨ m = 9 ∨ m = 11 then 30
  else 31

/-- Days in all years before year `y` of the proleptic Gregorian calendar. -/
def daysBeforeYear (y : Nat) : Nat :=
  365 * (y - 1) + (y - 1) / 4 - (y - 1) / 100 + (y - 1) / 400

/-- Days in the months of year `y` strictly before month `m`. -/
def daysBeforeMonth (y m : Nat) : Nat :=
  (List.range (m - 1)).foldl (fun acc i => acc + daysInMonth y (i + 1)) 0

/-- `date(y, m, d).toordinal()`: day number with `0001-01-01` as day 1. -/
def toOrdinal (y m d : Nat) : Nat :=
  daysBeforeYear y + daysBeforeMonth y m + d

/-- `date(y, m, d).weekday()`: Monday is `0` … Sunday is `6`
(`0001-01-01`, ordinal 1, was a Monday). -/
def weekday (y m d : Nat) : Nat :=
  (toOrdinal y m d + 6) % 7

/-- The day numbers `1 … last` of the month, in ascending order
(`month_days_iter` yields their `YYYY-MM-DD` strings). -/
def monthDays (y m : Nat) : List Nat :=
  (List.range (daysInMonth y m)).map (fun i => i + 1)

/-- `business_days_in_month(year, month)`: count the days of the month
whose `weekday()` is `< 5` (Monday–Friday). -/
def business_days_in_month (y m : Nat) : Nat :=
  (monthDays y m).foldl (fun cnt d => if weekday y m d < 5 then cnt + 1 else cnt) 0

/-! ## Month aggregator (`SalaryTab._gather_month_attendance`) -/

/-- `float(r.get("overtime", 0.0))` inside `try/except: pass`: an
unparsable overtime adds nothing to the running total. -/
def otParsed : Option ℚ → ℚ
  | some q => q
  | none => 0

/-- `(r.get("status", "A") or "A")`: an empty status string is replaced
by `"A"` before the case-insensitive test. -/
def statusNorm (st : String) : String :=
  if st = "" then "A" else st

/-- `status.upper().startswith("P")` on the normalised status: `.upper()`
maps `Char.toUpper` over the characters and `.startswith("P")` inspects
the first one. -/
def statusIsPresent (st : String) : Bool :=
  match (statusNorm st).data with
  | [] => false
  | c :: _ => c.toUpper = 'P'

/-- Processing one record of a day snapshot: ensure the employee's entry
exists (zero-initialised), then increment `present` or `absent` by the
status test and add the parsed overtime. -/
def stepRecord (d : String → Stats) (r : AttRecord) : String → Stats :=
  fun emp =>
    if emp = r.emp_id then
      { present := (d r.emp_id).present + (if statusIsPresent r.status then 1 else 0)
        absent := (d r.emp_id).absent + (if statusIsPresent r.status then 0 else 1)
        ot := (d r.emp_id).ot + otParsed r.overtime }
    else d emp

/-- `_gather_month_attendance`: fold over the days of the month in order,
where `days` holds each day's loaded rows (`load_attendance` returns `[]`
for a day with no snapshot file, and `if not rows: continue` skips it);
the result maps each `emp_id` to its totals, defaulting to zero. -/
def gather_month_attendance (days : List (List AttRecord)) : String → Stats :=
  days.foldl (fun d rows => if rows.isEmpty then d else rows.foldl stepRecord d)
    (fun _ => Stats.zero)

/-! ## Salary calculator (`SalaryTab.on_calculate`, lines 805-811) -/

/-- `per_hour = base / 176.0 if base else 0.0` (Python truthiness:
`base ≠ 0`). -/
def per_hour_rate (base : ℚ) : ℚ :=
  if base ≠ 0 then base / 176 else 0

/-- `prorated = base * (present / float(working_days) if working_days > 0 else 0.0)`. -/
def prorated_pay (base : ℚ) (present working_days : Nat) : ℚ :=
  base * (if 0 < working_days then (present : ℚ) / (working_days : ℚ) else 0)

/-- `ot_pay = per_hour * ot_hours`. -/
def overtime_pay (base ot_hours : ℚ) : ℚ :=
  per_hour_rate base * ot_hours

/-- `net = max(0.0, prorated + ot_pay)`. -/
def net_pay (base : ℚ) (present working_days : Nat) (ot_hours : ℚ) : ℚ :=
  max 0 (prorated_pay base present working_days + overtime_pay base ot_hours)

/-- One output row of the salary table. -/
structure SalaryRow where
  emp_id : String
  name : String
  base_salary : ℚ
  working_days : Nat
  present : Nat
  absent : Nat
  overtime_hours : ℚ
  net_pay : ℚ
  deriving DecidableEq

/-- The per-employee body of `on_calculate`: look up the employee's
aggregated stats (the total function already defaults to zero, matching
`att.get(emp_id, {"present": 0, "absent": 0, "ot": 0.0})`) and apply the
salary model. -/
def computeRow (e : Employee) (working_days : Nat) (att : String → Stats) : SalaryRow :=
  let stats := att e.emp_id
  { emp_id := e.emp_id
    name := e.name
    base_salary := e.base_salary
    working_days := working_days
    present := stats.present
    absent := stats.absent
    overtime_hours := stats.ot
    net_pay := net_pay e.base_salary stats.present working_days stats.ot }

/-- `on_calculate`: working days from the calendar, stats from the month
aggregation over the loaded day snapshots, one row per roster employee,
skipping those that fail the optional id filter
(`if emp_filter and emp_id != emp_filter: continue`). -/
def on_calculate (year month : Nat) (emps : List Employee)
    (days : List (List AttRecord)) (emp_filter : String) : List SalaryRow :=
  let working_days := business_days_in_month year month
  let att := gather_month_attendance days
  (emps.filter (fun e => emp_filter == "" || e.emp_id == emp_filter)).map
    (fun e => computeRow e working_days att)

/-! ## Employees tab: duplicate-id guard (`EmployeesTab.on_save_new`) -/

/-- Outcome of `on_save_new` (after form validation): the in-memory
roster afterwards, what (if anything) was written through
`save_employees`, and whether the save succeeded. -/
structure SaveNewResult where
  records : List Employee
  persisted : Option (List Employee)
  ok : Bool
  deriving DecidableEq

/-- `on_save_new`: if any existing record has the same `emp_id`, show the
"Duplicate" error and return with neither the list nor the file touched;
otherwise append and persist the extended roster. -/
def on_save_new (records : List Employee) (rec : Employee) : SaveNewResult :=
  if records.any (fun r => r.emp_id == rec.emp_id) then
    ⟨records, none, false⟩
  else
    ⟨records ++ [rec], some (records ++ [rec]), true⟩

/-! ## Attendance tab: merge-on-load (`AttendanceTab.on_load`) -/

/-- An in-memory row of the attendance table built by `on_load`
(`{"Emp_Id", "Name", "Status (P/A)", "IP", "Overtime Hours"}`). -/
structure AttRow where
  emp_id : String
  name : String
  status : String
  ip : String
  overtime : Option ℚ
  deriving DecidableEq

/-- `existing = {r["emp_id"]: r for r in load_attendance(day)}`: a dict
comprehension keeps, for each key, the record occurring last. -/
def lastSaved (saved : List AttRecord) (emp : String) : Option AttRecord :=
  saved.reverse.find? (fun r => r.emp_id == emp)

/-- `on_load`: one row per roster employee in roster order; status, ip
and overtime are carried from the saved record for that id when present
(`existing.get(emp_id, {}).get(...)`), else default to `"A"`, the host
address and `0`. Saved records with ids outside the roster are never
consulted. -/
def on_load (emps : List Employee) (saved : List AttRecord) (host_ip : String) : List AttRow :=
  emps.map (fun e =>
    match lastSaved saved e.emp_id with
    | some r => ⟨e.emp_id, e.name, r.status, r.ip, r.overtime⟩
    | none => ⟨e.emp_id, e.name, "A", host_ip, some 0⟩)

/-! ## Spec-side readings and concrete fixtures -/

/-- Claim-side reading of the status test: the status string starts with
the character `'P'` or `'p'`. -/
def startsWithPorp (st : String) : Bool :=
  match st.data with
  | [] => false
  | c :: _ => c == 'P' || c == 'p'

/-- Fixture: employee 1 marked absent with one parsed overtime hour. -/
def absentOtRec : AttRecord := ⟨"1", "x", "A", "ip", some 1⟩

/-- Fixture: employee 1 with base salary 176. -/
def absentOtEmp : Employee := ⟨"1", "x", 176⟩

/-- Fixture: a one-employee roster. -/
def mergeEmps : List Employee := [⟨"1", "x", 100⟩]

/-- Fixture: a saved day snapshot with one record for a roster employee
and one for an id outside the roster. -/
def mergeSaved : List AttRecord :=
  [⟨"1", "x", "P", "ip2", some 2⟩, ⟨"9", "q", "A", "ip9", none⟩]

end Nownn

namespace Nownn

/-! ## Helper lemmas -/

lemma toUpper_eq_P_iff (c : Char) : c.toUpper = 'P' ↔ c = 'P' ∨ c = 'p' := by
  unfold Char.toUpper
  by_cases h : c.toNat ≥ 97 ∧ c.toNat ≤ 122
  · rw [if_pos h]
    obtain ⟨h1, h2⟩ := h
    have hc : Char.ofNat c.toNat = c := Char.ofNat_toNat c
    set n := c.toNat with hn
    clear_value n
    interval_cases n <;> (rw [← hc]; decide)
  · rw [if_neg h]
    constructor
    · exact Or.inl
    · rintro (rfl | rfl)
      · rfl
      · exact absurd ⟨by decide, by decide⟩ h

lemma statusIsPresent_eq_startsWithPorp (st : String) :
    statusIsPresent st = startsWithPorp st := by
  by_cases hst : st = ""
  · subst hst; decide
  · have hnorm : statusNorm st = st := if_neg hst
    cases st with
    | mk data =>
      cases data with
      | nil => exact absurd rfl hst
      | cons c cs =>
        show statusIsPresent ⟨c :: cs⟩ = startsWithPorp ⟨c :: cs⟩
        rw [statusIsPresent, hnorm]
        show (decide (c.toUpper = 'P')) = startsWithPorp ⟨c :: cs⟩
        rw [startsWithPorp]
        by_cases h : c.toUpper = 'P'
        · rcases (toUpper_eq_P_iff c).mp h with h1 | h1 <;> simp [h, h1]
        · have h2 : ¬(c = 'P' ∨ c = 'p') := fun hc => h ((toUpper_eq_P_iff c).mpr hc)
          push_neg at h2
          simp [h, h2.1, h2.2]

lemma foldl_count_filter {α : Type} (p : α → Prop) [DecidablePred p] (l : List α) (acc : Nat) :
    l.foldl (fun cnt d => if p d then cnt + 1 else cnt) acc
      = acc + (l.filter (fun d => decide (p d))).length := by
  induction l generalizing acc with
  | nil => simp
  | cons x xs ih =>
    by_cases h : p x
    · simp only [List.foldl_cons, if_pos h, ih]
      simp [h]
      omega
    · simp [List.foldl_cons, h, ih]

lemma stepRecord_ne (d : String → Stats) (r : AttRecord) (emp : String) (h : emp ≠ r.emp_id) :
    stepRecord d r emp = d emp := by
  simp [stepRecord, h]

lemma foldl_stepRecord_not_mem (rows : List AttRecord) (d : String → Stats) (emp : String)
    (h : ∀ r ∈ rows, r.emp_id ≠ emp) :
    rows.foldl stepRecord d emp = d emp := by
  induction rows generalizing d with
  | nil => rfl
  | cons r rs ih =>
    rw [List.foldl_cons, ih _ (fun x hx => h x (List.mem_cons_of_mem _ hx))]
    exact stepRecord_ne d r emp (h r (List.mem_cons_self _ _)).symm

lemma gather_foldl_not_mem (days : List (List AttRecord)) (d : String → Stats) (emp : String)
    (h : ∀ rows ∈ days, ∀ r ∈ rows, r.emp_id ≠ emp) :
    days.foldl (fun acc rows => if rows.isEmpty then acc else rows.foldl stepRecord acc) d emp
      = d emp := by
  induction days generalizing d with
  | nil => rfl
  | cons rows rest ih =>
    rw [List.foldl_cons, ih _ (fun rs hrs => h rs (List.mem_cons_of_mem _ hrs))]
    by_cases he : rows.isEmpty
    · rw [if_pos he]
    · rw [if_neg he]
      exact foldl_stepRecord_not_mem rows d emp (h rows (List.mem_cons_self _ _))

lemma foldl_stepRecord_present (rows : List AttRecord) (d : String → Stats) (emp : String)
    (h : ∀ r ∈ rows, r.emp_id = emp → statusIsPresent r.status = false) :
    (rows.foldl stepRecord d emp).present = (d emp).present := by
  induction rows generalizing d with
  | nil => rfl
  | cons r rs ih =>
    rw [List.foldl_cons, ih _ (fun x hx => h x (List.mem_cons_of_mem _ hx))]
    by_cases he : emp = r.emp_id
    · simp [stepRecord, he, h r (List.mem_cons_self _ _) he.symm]
    · simp [stepRecord, he]

lemma gather_foldl_present (days : List (List AttRecord)) (d : String → Stats) (emp : String)
    (h : ∀ rows ∈ days, ∀ r ∈ rows, r.emp_id = emp → statusIsPresent r.status = false) :
    (days.foldl (fun acc rows => if rows.isEmpty then acc else rows.foldl stepRecord acc) d emp).present
      = (d emp).present := by
  induction days generalizing d with
  | nil => rfl
  | cons rows rest ih =>
    rw [List.foldl_cons, ih _ (fun rs hrs => h rs (List.mem_cons_of_mem _ hrs))]
    by_cases he : rows.isEmpty
    · rw [if_pos he]
    · rw [if_neg he]
      exact foldl_stepRecord_present rows d emp (h rows (List.mem_cons_self _ _))

lemma lastSaved_eq_of_mem (saved : List AttRecord) (hnd : (saved.map AttRecord.emp_id).Nodup)
    (r : AttRecord) (hr : r ∈ saved) : lastSaved saved r.emp_id = some r := by
  unfold lastSaved
  cases hfind : saved.reverse.find? (fun x => x.emp_id == r.emp_id) with
  | none =>
    rw [List.find?_eq_none] at hfind
    exact absurd (by simp) (hfind r (List.mem_reverse.mpr hr))
  | some s =>
    have hs : s ∈ saved := List.mem_reverse.mp (List.mem_of_find?_eq_some hfind)
    have hpred : s.emp_id = r.emp_id := by
      have := List.find?_some hfind
      simpa using this
    rw [List.inj_on_of_nodup_map hnd hs hr hpred]

lemma lastSaved_eq_none_of_not_mem (saved : List AttRecord) (emp : String)
    (h : ∀ r ∈ saved, r.emp_id ≠ emp) : lastSaved saved emp = none := by
  unfold lastSaved
  rw [List.find?_eq_none]
  intro x hx
  simp [h x (List.mem_reverse.mp hx)]


/-! ## The claims -/

/-- C1: for an employee with non-negative base salary `b`, aggregated
stats `(p, h)` and `w` working days, the computation of `on_calculate`
satisfies `per_hour_rate = b / 176` when `b > 0` and `0` otherwise,
`prorated = b * (p / w)` when `w > 0` and `0` otherwise,
`overtime_pay = per_hour_rate * h`, and
`net_pay = max 0 (prorated + overtime_pay)`. -/
theorem salary_formula_matches_spec (e : Employee) (w : Nat) (att : String → Stats)
    (hb : 0 ≤ e.base_salary) :
    per_hour_rate e.base_salary
        = (if 0 < e.base_salary then e.base_salary / 176 else 0) ∧
    prorated_pay e.base_salary (att e.emp_id).present w
        = (if 0 < w then e.base_salary * (((att e.emp_id).present : ℚ) / (w : ℚ)) else 0) ∧
    overtime_pay e.base_salary (att e.emp_id).ot
        = per_hour_rate e.base_salary * (att e.emp_id).ot ∧
    (computeRow e w att).net_pay
        = max 0 (prorated_pay e.base_salary (att e.emp_id).present w
            + overtime_pay e.base_salary (att e.emp_id).ot) := by
  refine ⟨?_, ?_, rfl, rfl⟩
  · rcases hb.lt_or_eq with h | h
    · rw [per_hour_rate, if_pos h.ne', if_pos h]
    · rw [per_hour_rate, ← h]
      simp
  · rcases Nat.eq_zero_or_pos w with h | h
    · subst h
      simp [prorated_pay]
    · rw [prorated_pay, if_pos h, if_pos h]

/-- Witness for `salary_formula_matches_spec` at base 17600, 22 working
days, 22 present days and 10 overtime hours. -/
theorem salary_formula_matches_spec_witness :
    (0 : ℚ) ≤ (17600 : ℚ) ∧
    (per_hour_rate 17600 = (if (0 : ℚ) < 17600 then (17600 : ℚ) / 176 else 0) ∧
     prorated_pay 17600 22 22 = (if 0 < 22 then (17600 : ℚ) * ((22 : ℚ) / (22 : ℚ)) else 0) ∧
     overtime_pay 17600 10 = per_hour_rate 17600 * 10 ∧
     (computeRow ⟨"1", "x", 17600⟩ 22 (fun _ => ⟨22, 0, 10⟩)).net_pay
        = max 0 (prorated_pay 17600 22 22 + overtime_pay 17600 10)) :=
  ⟨by norm_num,
   salary_formula_matches_spec ⟨"1", "x", 17600⟩ 22 (fun _ => ⟨22, 0, 10⟩) (by norm_num)⟩

/-- C2 counterexample: at base 17600, 22 working days, 22 present days
and 10 overtime hours, the computed net pay is 18600, not the 18000 the
claim states. -/
theorem overtime_scenario_net_pay_not_18000 :
    net_pay 17600 22 22 10 = 18600 ∧ net_pay 17600 22 22 10 ≠ 18000 := by
  constructor <;>
    norm_num [net_pay, prorated_pay, overtime_pay, per_hour_rate]

/-- C2 amended: the overtime-only scenario yields `per_hour_rate = 100`,
`prorated = 17600`, `overtime_pay = 1000` and `net_pay = 18600`. -/
theorem overtime_scenario_values :
    per_hour_rate 17600 = 100 ∧ prorated_pay 17600 22 22 = 17600 ∧
    overtime_pay 17600 10 = 1000 ∧ net_pay 17600 22 22 10 = 18600 := by
  refine ⟨?_, ?_, ?_, ?_⟩ <;>
    norm_num [net_pay, prorated_pay, overtime_pay, per_hour_rate]

/-- C3: processing one record during month aggregation increments the
employee's present count exactly when the status string starts with `'P'`
or `'p'`, otherwise increments the absent count, and always adds the
record's overtime, which contributes `0` when it does not parse. -/
theorem aggregation_record_step (d : String → Stats) (r : AttRecord) :
    (stepRecord d r r.emp_id).present
        = (d r.emp_id).present + (if startsWithPorp r.status then 1 else 0) ∧
    (stepRecord d r r.emp_id).absent
        = (d r.emp_id).absent + (if startsWithPorp r.status then 0 else 1) ∧
    (stepRecord d r r.emp_id).ot = (d r.emp_id).ot + otParsed r.overtime ∧
    otParsed none = 0 ∧ (∀ q : ℚ, otParsed (some q) = q) := by
  refine ⟨?_, ?_, ?_, rfl, fun q => rfl⟩ <;>
    simp [stepRecord, statusIsPresent_eq_startsWithPorp]

/-- C4: a day with no snapshot (loaded as the empty list) contributes
nothing to the aggregation, and an employee appearing in no day's records
ends with zero present days, zero absent days and zero overtime. -/
theorem aggregation_skips_missing_days
    (pre post days : List (List AttRecord)) (emp : String) :
    gather_month_attendance (pre ++ [] :: post) = gather_month_attendance (pre ++ post) ∧
    ((∀ rows ∈ days, ∀ r ∈ rows, r.emp_id ≠ emp) →
      gather_month_attendance days emp = Stats.zero) := by
  constructor
  · simp [gather_month_attendance, List.foldl_append]
  · intro h
    exact gather_foldl_not_mem days _ emp h

/-- Witness for `aggregation_skips_missing_days` on a one-day month whose
only record belongs to employee 2, queried for employee 1. -/
theorem aggregation_skips_missing_days_witness :
    (∀ rows ∈ ([[⟨"2", "y", "P", "ip", none⟩]] : List (List AttRecord)),
      ∀ r ∈ rows, r.emp_id ≠ "1") ∧
    (gather_month_attendance ([] ++ [] :: []) = gather_month_attendance ([] ++ []) ∧
     ((∀ rows ∈ ([[⟨"2", "y", "P", "ip", none⟩]] : List (List AttRecord)),
        ∀ r ∈ rows, r.emp_id ≠ "1") →
      gather_month_attendance [[⟨"2", "y", "P", "ip", none⟩]] "1" = Stats.zero)) :=
  ⟨by decide, aggregation_skips_missing_days [] [] [[⟨"2", "y", "P", "ip", none⟩]] "1"⟩


/-- C5 counterexample: employee 1 is entirely absent for the month (the
only record has status `"A"`), yet the computed net pay is `1`, not `0`:
the overtime of the absent day is still paid at `176 / 176 = 1` per hour. -/
theorem absent_with_overtime_nonzero_net :
    statusIsPresent absentOtRec.status = false ∧
    absentOtEmp.emp_id = absentOtRec.emp_id ∧
    (computeRow absentOtEmp 21 (gather_month_attendance [[absentOtRec]])).net_pay = 1 := by
  refine ⟨by decide, rfl, ?_⟩
  have h1 : gather_month_attendance [[absentOtRec]] "1" = ⟨0, 1, 1⟩ := by
    have hs : statusIsPresent "A" = false := by decide
    simp [gather_month_attendance, stepRecord, absentOtRec, hs, Stats.zero, otParsed]
  norm_num [computeRow, absentOtEmp, h1, net_pay, prorated_pay, overtime_pay, per_hour_rate]

/-- C5 amended: an employee all of whose month records are non-Present
(in particular one with no records at all), **and whose aggregated
overtime total is zero**, has computed net pay `0`. -/
theorem absent_month_zero_overtime_zero_net
    (days : List (List AttRecord)) (e : Employee) (w : Nat)
    (habs : ∀ rows ∈ days, ∀ r ∈ rows, r.emp_id = e.emp_id → statusIsPresent r.status = false)
    (hot : (gather_month_attendance days e.emp_id).ot = 0) :
    (computeRow e w (gather_month_attendance days)).net_pay = 0 := by
  have hp : (gather_month_attendance days e.emp_id).present = 0 :=
    gather_foldl_present days _ e.emp_id habs
  simp [computeRow, net_pay, prorated_pay, overtime_pay, hp, hot]

/-- Witness for `absent_month_zero_overtime_zero_net`: one absent day
with zero overtime for employee 1. -/
theorem absent_month_zero_overtime_zero_net_witness :
    (∀ rows ∈ ([[⟨"1", "x", "A", "ip", some 0⟩]] : List (List AttRecord)),
      ∀ r ∈ rows, r.emp_id = (⟨"1", "x", 176⟩ : Employee).emp_id →
        statusIsPresent r.status = false) ∧
    (gather_month_attendance [[⟨"1", "x", "A", "ip", some 0⟩]]
        (⟨"1", "x", 176⟩ : Employee).emp_id).ot = 0 ∧
    (computeRow ⟨"1", "x", 176⟩ 21
        (gather_month_attendance [[⟨"1", "x", "A", "ip", some 0⟩]])).net_pay = 0 := by
  have h1 : ∀ rows ∈ ([[⟨"1", "x", "A", "ip", some 0⟩]] : List (List AttRecord)),
      ∀ r ∈ rows, r.emp_id = (⟨"1", "x", 176⟩ : Employee).emp_id →
        statusIsPresent r.status = false := by decide
  have h2 : (gather_month_attendance [[⟨"1", "x", "A", "ip", some 0⟩]]
      (⟨"1", "x", 176⟩ : Employee).emp_id).ot = 0 := by
    have hs : statusIsPresent "A" = false := by decide
    simp [gather_month_attendance, stepRecord, hs, Stats.zero, otParsed]
  exact ⟨h1, h2, absent_month_zero_overtime_zero_net _ _ 21 h1 h2⟩

/-- C6: `business_days_in_month` counts exactly the days of the month
whose weekday is Monday–Friday (`weekday < 5`), depends only on year and
month (every salary row of a calculation carries that same value), and
evaluates to 21 for August 2025. -/
theorem working_days_business_count :
    (∀ y m, business_days_in_month y m
        = ((monthDays y m).filter (fun d => decide (weekday y m d < 5))).length) ∧
    business_days_in_month 2025 8 = 21 ∧
    (∀ year month emps days f,
      ((on_calculate year month emps days f).map SalaryRow.working_days).all
        (fun w => w == business_days_in_month year month) = true) := by
  refine ⟨?_, by decide, ?_⟩
  · intro y m
    simpa using foldl_count_filter (fun d => weekday y m d < 5) (monthDays y m) 0
  · intro year month emps days f
    simp only [List.all_eq_true, List.mem_map, on_calculate]
    rintro w ⟨row, ⟨e, _, rfl⟩, rfl⟩
    simp [computeRow]

/-- C7 counterexample: an existing but unparsable attendance file makes
`load_attendance` raise (`json.load` has no handler there), instead of
returning the empty list the claim promises. -/
theorem load_attendance_malformed_raises :
    load_attendance StoredContent.malformed = Except.error "JSONDecodeError" ∧
    (¬ ∃ rows, load_attendance StoredContent.malformed = Except.ok rows) := by
  refine ⟨rfl, ?_⟩
  rintro ⟨rows, h⟩
  simp [load_attendance] at h

/-- C7 amended: `load_employees` degrades to the empty roster on both a
missing and a malformed backing file, while `load_attendance` returns the
empty list only for a missing file. -/
theorem storage_load_leniency :
    load_employees StoredContent.missing = [] ∧
    load_employees StoredContent.malformed = [] ∧
    load_attendance StoredContent.missing = Except.ok [] :=
  ⟨rfl, rfl, rfl⟩

/-- C8: adding an employee whose id already occurs in the roster fails:
the in-memory roster is returned unchanged and nothing is persisted. -/
theorem duplicate_emp_id_add_fails (records : List Employee) (rec : Employee)
    (h : ∃ r ∈ records, r.emp_id = rec.emp_id) :
    on_save_new records rec = ⟨records, none, false⟩ := by
  obtain ⟨r, hr, he⟩ := h
  have hany : records.any (fun x => x.emp_id == rec.emp_id) = true :=
    List.any_eq_true.mpr ⟨r, hr, by simp [he]⟩
  simp [on_save_new, hany]

/-- Witness for `duplicate_emp_id_add_fails` on a one-employee roster. -/
theorem duplicate_emp_id_add_fails_witness :
    (∃ r ∈ ([⟨"1", "x", 100⟩] : List Employee),
      r.emp_id = (⟨"1", "y", 200⟩ : Employee).emp_id) ∧
    on_save_new [⟨"1", "x", 100⟩] ⟨"1", "y", 200⟩ = ⟨[⟨"1", "x", 100⟩], none, false⟩ :=
  ⟨⟨⟨"1", "x", 100⟩, by simp, rfl⟩,
   duplicate_emp_id_add_fails _ _ ⟨⟨"1", "x", 100⟩, by simp, rfl⟩⟩

/-- C9: saving a day's snapshot and reloading that day returns exactly
the saved records. -/
theorem attendance_round_trip (store : AttStore) (day : String) (rows : List AttRecord) :
    loadDayAttendance (save_attendance store day rows) day = Except.ok rows := by
  simp [loadDayAttendance, save_attendance, load_attendance]

/-- C10: merge-on-load builds one row per roster employee in roster
order; when a saved record with the employee's id exists its status, ip
and overtime are carried forward, otherwise the row defaults to status
`"A"`, the host address and overtime `0`; every produced row belongs to a
roster employee, so saved records with ids outside the roster are
dropped. -/
theorem on_load_merge (emps : List Employee) (saved : List AttRecord) (host_ip : String)
    (hnd : (saved.map AttRecord.emp_id).Nodup) :
    (on_load emps saved host_ip).length = emps.length ∧
    (∀ (i : Nat) (e : Employee), emps[i]? = some e → ∀ r ∈ saved, r.emp_id = e.emp_id →
      (on_load emps saved host_ip)[i]? = some ⟨e.emp_id, e.name, r.status, r.ip, r.overtime⟩) ∧
    (∀ (i : Nat) (e : Employee), emps[i]? = some e → (∀ r ∈ saved, r.emp_id ≠ e.emp_id) →
      (on_load emps saved host_ip)[i]? = some ⟨e.emp_id, e.name, "A", host_ip, some 0⟩) ∧
    (∀ row ∈ on_load emps saved host_ip, row.emp_id ∈ emps.map Employee.emp_id) := by
  refine ⟨by simp [on_load], ?_, ?_, ?_⟩
  · intro i e hi r hr he
    have h1 : lastSaved saved e.emp_id = some r := by
      rw [← he]
      exact lastSaved_eq_of_mem saved hnd r hr
    simp [on_load, List.getElem?_map, hi, h1]
  · intro i e hi h
    have h1 : lastSaved saved e.emp_id = none := lastSaved_eq_none_of_not_mem saved _ h
    simp [on_load, List.getElem?_map, hi, h1]
  · intro row hrow
    simp only [on_load, List.mem_map] at hrow
    obtain ⟨e, he, heq⟩ := hrow
    subst heq
    cases h2 : lastSaved saved e.emp_id <;>
      exact List.mem_map.mpr ⟨e, he, rfl⟩

/-- Witness for `on_load_merge` on the concrete roster and snapshot
fixtures. -/
theorem on_load_merge_witness :
    ((mergeSaved.map AttRecord.emp_id).Nodup) ∧
    ((on_load mergeEmps mergeSaved "h").length = mergeEmps.length ∧
     (∀ (i : Nat) (e : Employee), mergeEmps[i]? = some e →
        ∀ r ∈ mergeSaved, r.emp_id = e.emp_id →
          (on_load mergeEmps mergeSaved "h")[i]?
            = some ⟨e.emp_id, e.name, r.status, r.ip, r.overtime⟩) ∧
     (∀ (i : Nat) (e : Employee), mergeEmps[i]? = some e →
        (∀ r ∈ mergeSaved, r.emp_id ≠ e.emp_id) →
          (on_load mergeEmps mergeSaved "h")[i]?
            = some ⟨e.emp_id, e.name, "A", "h", some 0⟩) ∧
     (∀ row ∈ on_load mergeEmps mergeSaved "h", row.emp_id ∈ mergeEmps.map Employee.emp_id)) :=
  ⟨by decide, on_load_merge mergeEmps mergeSaved "h" (by decide)⟩

end Nownn
